import Mathlib

/-!
Verification of the teleop bridge in tools/teleop_server.py.

The file shallowly embeds the bridge's pure core:
  - BrainstemSerial.read_lines' buffer/split framing loop (bytes are Nat,
    chunks are lists of bytes, the generator's yields are collected in order);
  - BrainstemSerial.write_line's byte rendering;
  - TeleopServer.handle_msg's translation of parsed client messages into
    device lines, sequence-counter updates, stats updates, TX echo fan-out
    and exception propagation;
  - the per-session delivery loop of TeleopServer.telemetry_task.

Machine integers are Nat with explicit reduction modulo 2^32 (the source
masks with 0xFFFFFFFF). Python exceptions are modelled by an explicit
error field; Python builtins float(), int(), bool() are modelled on the
JSON value type produced by json.loads (decimal literals only for the
string cases, which is all the claims exercise).
-/

namespace Teleop

/-! ### Byte-level helpers shared by the serial framing and write path -/

/-- Python bytes.decode("ascii", errors="ignore") on a byte list: bytes not
below 128 are dropped; the survivors are the character codes of the result. -/
def decodeAsciiIgnore (l : List Nat) : List Nat := l.filter (fun b => b < 128)

/-- Python str.rstrip with a carriage-return argument: remove every trailing
carriage return (code 13). The result is kept as a list of character codes. -/
def rstripCR (l : List Nat) : List Nat := (l.reverse.dropWhile (fun b => b == 13)).reverse

/-- One yielded line of BrainstemSerial.read_lines: the bytes before the
newline are ascii-decoded with errors ignored, then trailing carriage
returns are stripped. -/
def lineOf (l : List Nat) : List Nat := rstripCR (decodeAsciiIgnore l)

/-- The inner while-loop of BrainstemSerial.read_lines: repeatedly look for
the first newline byte 0x0A in the buffer; if present, yield the decoded
line before it and delete through the newline; otherwise stop. Returns the
yielded lines in order together with the residual buffer. -/
def drainBuf (buf : List Nat) : List (List Nat) × List Nat :=
  if h : 10 ∈ buf then
    let p := drainBuf (buf.drop (buf.indexOf 10 + 1))
    (lineOf (buf.take (buf.indexOf 10)) :: p.1, p.2)
  else ([], buf)
termination_by buf.length
decreasing_by
  simp only [List.length_drop]
  have h2 : 0 < buf.length := List.length_pos.mpr (List.ne_nil_of_mem h)
  omega

/-- One iteration of the outer loop of BrainstemSerial.read_lines for a
non-empty chunk: extend the buffer with the chunk, then drain complete
lines. The state is (lines yielded so far, residual buffer). -/
def readChunk (st : List (List Nat) × List Nat) (chunk : List Nat) : List (List Nat) × List Nat :=
  let p := drainBuf (st.2 ++ chunk)
  (st.1 ++ p.1, p.2)

/-- BrainstemSerial.read_lines run over a finite sequence of delivered
chunks, starting from the empty buffer: returns all yielded lines in order
and the final residual buffer. -/
def read_lines (cs : List (List Nat)) : List (List Nat) × List Nat :=
  cs.foldl readChunk ([], [])

/-- Character codes of a string. -/
def strBytes (s : String) : List Nat := s.toList.map (fun c => c.toNat)

/-- Python str.encode("ascii", errors="ignore"): characters with code not
below 128 are dropped, the rest become their byte values. -/
def pyEncodeAscii (s : String) : List Nat :=
  (s.toList.filter (fun c => c.toNat < 128)).map (fun c => c.toNat)

/-- Python str.rstrip with a one-character argument: remove every trailing
occurrence of that character. -/
def rstripChar (s : String) (c : Char) : String :=
  String.mk ((s.toList.reverse.dropWhile (fun d => d == c)).reverse)

/-- BrainstemSerial.write_line's rendering of the bytes handed to the
device: strip trailing newlines from the text, append one newline, encode
as ascii with errors ignored. -/
def write_line (line : String) : List Nat :=
  pyEncodeAscii (rstripChar line '\n' ++ "\n")

/-! ### JSON values and the Python builtins used by handle_msg -/

/-- A JSON value as produced by json.loads. Numbers are modelled as
rationals. -/
inductive JVal where
  | null : JVal
  | bool (b : Bool) : JVal
  | num (q : ℚ) : JVal
  | str (s : String) : JVal
  | arr (xs : List JVal) : JVal
  | obj (kvs : List (String × JVal)) : JVal

/-- A parsed client message object: the key/value pairs of the JSON object. -/
abbrev Msg := List (String × JVal)

/-- Python dict.get on a parsed JSON object: the value of the first binding
of the key, if any. -/
def jGet (m : Msg) (k : String) : Option JVal := (m.find? (fun kv => kv.1 == k)).map (fun kv => kv.2)

/-- Exceptions that the modelled fragment can raise. -/
inductive PyErr where
  | valueError : PyErr
  | typeError : PyErr
  | writeError : PyErr
deriving DecidableEq

/-- Digits of a decimal literal folded into a Nat. -/
def digitsToNat (l : List Char) : Nat := l.foldl (fun a c => a * 10 + (c.toNat - 48)) 0

/-- Python float() on a string, restricted to plain decimal literals: an
optional sign, then digits with an optional fractional part (at least one
digit overall). Modelled from the builtin; exponent forms, inf/nan and
surrounding whitespace are not exercised by the bridge's claims. -/
def strToRat? (s : String) : Option ℚ :=
  let cs := s.toList
  let sign : Bool := match cs with
    | '-' :: _ => true
    | _ => false
  let rest : List Char := match cs with
    | '-' :: r => r
    | '+' :: r => r
    | r => r
  let ip := rest.takeWhile (fun c => c ≠ '.')
  let rest' := rest.dropWhile (fun c => c ≠ '.')
  let ok : Bool :=
    ip.all (fun c => c.isDigit) &&
    (match rest' with
     | [] => !ip.isEmpty
     | _ :: fp => fp.all (fun c => c.isDigit) && (!ip.isEmpty || !fp.isEmpty))
  if ok then
    let fp := match rest' with
      | [] => []
      | _ :: fp => fp
    let mag : ℚ := (digitsToNat ip : ℚ) + (digitsToNat fp : ℚ) / ((10 : ℚ) ^ fp.length)
    some (if sign then -mag else mag)
  else none

/-- Python int() on a string, restricted to an optional sign followed by
digits. -/
def strToInt? (s : String) : Option Int :=
  let cs := s.toList
  let sign : Bool := match cs with
    | '-' :: _ => true
    | _ => false
  let rest : List Char := match cs with
    | '-' :: r => r
    | '+' :: r => r
    | r => r
  if !rest.isEmpty && rest.all (fun c => c.isDigit) then
    some (if sign then -(digitsToNat rest : Int) else (digitsToNat rest : Int))
  else none

/-- Python float() on a JSON value: numbers pass through, booleans become
0 or 1, numeric strings parse, everything else raises. -/
def pyFloat : JVal → Except PyErr ℚ
  | JVal.num q => Except.ok q
  | JVal.bool b => Except.ok (if b then 1 else 0)
  | JVal.str s =>
      match strToRat? s with
      | some q => Except.ok q
      | none => Except.error PyErr.valueError
  | _ => Except.error PyErr.typeError

/-- Truncation of a rational toward zero, as Python int() applied to a
float. -/
def ratTrunc (q : ℚ) : Int := if q < 0 then -(Rat.floor (-q)) else Rat.floor q

/-- Python int() on a JSON value: numbers truncate toward zero, booleans
become 0 or 1, integer-literal strings parse, everything else raises. -/
def pyInt : JVal → Except PyErr Int
  | JVal.num q => Except.ok (ratTrunc q)
  | JVal.bool b => Except.ok (if b then 1 else 0)
  | JVal.str s =>
      match strToInt? s with
      | some n => Except.ok n
      | none => Except.error PyErr.valueError
  | _ => Except.error PyErr.typeError

/-- Python bool() truthiness on a JSON value. -/
def pyBool : JVal → Bool
  | JVal.null => false
  | JVal.bool b => b
  | JVal.num q => q != 0
  | JVal.str s => s != ""
  | JVal.arr xs => !xs.isEmpty
  | JVal.obj kvs => !kvs.isEmpty

/-! ### Fixed-point rendering used by the TWIST f-string -/

/-- Round a rational to the nearest integer, ties to even (the rounding of
Python's fixed-point formatting). -/
def rhe (r : ℚ) : Int :=
  let n := Rat.floor r
  let f := r - (n : ℚ)
  if f > 1/2 then n + 1 else if f < 1/2 then n else if n % 2 = 0 then n else n + 1

/-- Pad a Nat below 1000 to three digits. -/
def pad3 (k : Nat) : String :=
  if k < 10 then "00" ++ toString k else if k < 100 then "0" ++ toString k else toString k

/-- Python format specifier .3f applied to a rational: sign, integer part,
point, three fractional digits, rounding half to even on the magnitude. -/
def fmt3 (q : ℚ) : String :=
  let n := (rhe (|q| * 1000)).toNat
  (if q < 0 then "-" else "") ++ toString (n / 1000) ++ "." ++ pad3 (n % 1000)

/-! ### Bridge state and handle_msg -/

/-- The modulus of the sequence counter: the source masks with 0xFFFFFFFF,
that is reduces modulo 2^32. -/
def M32 : Nat := 4294967296

/-- The mutable fields of TeleopServer touched by handle_msg and
telemetry_task. -/
structure Bridge where
  seq : Nat
  tx_count : Nat
  rx_count : Nat
  last_tx : Option String
  last_rx : Option String

/-- A WebSocket payload broadcast to clients: json.dumps of an object with
a type tag "tx" or "rx" and the line. The dump is injective in the line, so
the payload is modelled structurally. -/
inductive WsEvent where
  | tx (line : String) : WsEvent
  | rx (line : String) : WsEvent

/-- The observable outcome of one handle_msg call: the state afterwards,
the lines passed to serial write_line (in order), the sequence numbers
interpolated into those lines, the payloads broadcast to the client set,
and the exception propagating out of the call, if any. -/
structure HRes where
  st : Bridge
  writes : List String
  seqs : List Nat
  echoes : List WsEvent
  err : Option PyErr

/-- The common try/finally block of every handle_msg branch: attempt the
serial write; on success bump tx_count and record last_tx; in all cases
(finally) broadcast the TX echo payload; a write failure propagates after
the echo. writeOk says whether serial.write_line succeeds. -/
def sendAndEcho (writeOk : Bool) (st : Bridge) (line : String) (sq : List Nat) : HRes :=
  if writeOk then
    { st := { st with tx_count := st.tx_count + 1, last_tx := some line },
      writes := [line], seqs := sq, echoes := [WsEvent.tx line], err := none }
  else
    { st := st, writes := [line], seqs := sq, echoes := [WsEvent.tx line],
      err := some PyErr.writeError }

/-- A handle_msg call that does nothing: unknown or malformed messages fall
through silently. -/
def hskip (st : Bridge) : HRes :=
  { st := st, writes := [], seqs := [], echoes := [], err := none }

/-- A handle_msg call aborted by an uncaught exception before any effect. -/
def hraise (st : Bridge) (e : PyErr) : HRes :=
  { st := st, writes := [], seqs := [], echoes := [], err := some e }

/-- TeleopServer.handle_msg on an already json-parsed object message. The
type field selects the branch; twist parses vx and wz with float() (an
uncaught exception propagates), twist and ping advance the sequence counter
modulo 2^32 and interpolate it into the line, safe coerces enable with
bool() defaulting to enabled, led parses mask with int() inside a
try/except defaulting to 0; each taken branch writes exactly one line and
echoes it; anything else is ignored. -/
def handle_msg (writeOk : Bool) (st : Bridge) (m : Msg) : HRes :=
  match jGet m "type" with
  | some (JVal.str t) =>
    if t = "twist" then
      match pyFloat ((jGet m "vx").getD (JVal.num 0)) with
      | Except.error e => hraise st e
      | Except.ok vx =>
        match pyFloat ((jGet m "wz").getD (JVal.num 0)) with
        | Except.error e => hraise st e
        | Except.ok wz =>
          let seq' := (st.seq + 1) % M32
          let line := "TWIST," ++ fmt3 vx ++ "," ++ fmt3 wz ++ "," ++ toString seq'
          sendAndEcho writeOk { st with seq := seq' } line [seq']
    else if t = "safe" then
      let v : Nat := if pyBool ((jGet m "enable").getD (JVal.bool true)) then 1 else 0
      let line := "SAFE," ++ toString v
      sendAndEcho writeOk st line []
    else if t = "ping" then
      let seq' := (st.seq + 1) % M32
      let line := "PING," ++ toString seq'
      sendAndEcho writeOk { st with seq := seq' } line [seq']
    else if t = "led" then
      let mask : Int :=
        match pyInt ((jGet m "mask").getD (JVal.num 0)) with
        | Except.ok n => n
        | Except.error _ => 0
      let line := "LED," ++ toString mask
      sendAndEcho writeOk st line []
    else hskip st
  | _ => hskip st

/-- A sequence of handle_msg calls from one state: the final state and the
concatenated trace of sequence numbers interpolated into device lines. -/
def handleMany (writeOk : Bool) (st : Bridge) (msgs : List Msg) : Bridge × List Nat :=
  msgs.foldl (fun acc m =>
    let r := handle_msg writeOk acc.1 m
    (r.st, acc.2 ++ r.seqs)) (st, [])

/-! ### The telemetry fan-out loop -/

/-- The per-session loop of TeleopServer.telemetry_task for one received
line: iterate over a snapshot of the client set; a failed send appends the
session to the dead list instead of aborting; afterwards every dead session
is discarded from the registry. Sessions are identifiers; fails says which
sessions' sends raise. Returns (sessions delivered to, registry
afterwards). -/
def telemetry_broadcast (clients : List Nat) (fails : Nat → Bool) : List Nat × List Nat :=
  let r := clients.foldl
    (fun (acc : List Nat × List Nat) ws =>
      if fails ws then (acc.1, acc.2 ++ [ws]) else (acc.1 ++ [ws], acc.2))
    ([], [])
  (r.1, r.2.foldl (fun s w => s.filter (fun c => c ≠ w)) clients)

/-! ### Observers used to state the sequence-counter claims -/

/-- Does a message select a branch that advances the sequence counter,
that is, is its type field the string twist or the string ping? -/
def isSeqMsg (m : Msg) : Bool :=
  match jGet m "type" with
  | some (JVal.str t) => if t = "twist" ∨ t = "ping" then true else false
  | _ => false

/-- Does Python float() succeed on this JSON value? -/
def pyFloatOk (v : JVal) : Bool :=
  match pyFloat v with
  | Except.ok _ => true
  | Except.error _ => false

/-- A message is float-safe when, if it is a twist message, both its vx and
wz fields convert with float() without raising. -/
def twistOk (m : Msg) : Prop :=
  (jGet m "type" = some (JVal.str "twist")) →
    pyFloatOk ((jGet m "vx").getD (JVal.num 0)) = true ∧
    pyFloatOk ((jGet m "wz").getD (JVal.num 0)) = true

end Teleop

namespace Teleop

/-! ### Framing lemmas for drainBuf -/

theorem drainBuf_no (buf : List Nat) (h : 10 ∉ buf) : drainBuf buf = ([], buf) := by
  rw [drainBuf, dif_neg h]

theorem indexOf_append_notMem (l rest : List Nat) (h : 10 ∉ l) :
    (l ++ 10 :: rest).indexOf 10 = l.length := by
  induction l with
  | nil => simp [List.indexOf_cons_self]
  | cons a t ih =>
      have ha : a ≠ 10 := by
        intro hq
        exact h (hq ▸ List.mem_cons_self a t)
      have ht : 10 ∉ t := fun hq => h (List.mem_cons_of_mem a hq)
      simp only [List.cons_append, List.indexOf_cons_ne _ ha, ih ht, List.length_cons,
        Nat.succ_eq_add_one]

theorem drainBuf_split (l rest : List Nat) (h : 10 ∉ l) :
    drainBuf (l ++ 10 :: rest) = (lineOf l :: (drainBuf rest).1, (drainBuf rest).2) := by
  have hm : 10 ∈ l ++ 10 :: rest := by
    simp
  rw [drainBuf, dif_pos hm, indexOf_append_notMem l rest h]
  have htake : (l ++ 10 :: rest).take l.length = l := List.take_left l _
  have hdrop : (l ++ 10 :: rest).drop (l.length + 1) = rest := by
    rw [List.append_cons l 10 rest]
    exact List.drop_left' (by simp)
  rw [htake, hdrop]

theorem drainBuf_tail_aux : ∀ n (buf : List Nat), buf.length ≤ n → 10 ∉ (drainBuf buf).2 := by
  intro n
  induction n with
  | zero =>
      intro buf hb
      have : buf = [] := List.length_eq_zero.mp (Nat.le_zero.mp hb)
      subst this
      rw [drainBuf_no _ (by simp)]
      simp
  | succ n ih =>
      intro buf hb
      by_cases h : 10 ∈ buf
      · rw [drainBuf, dif_pos h]
        apply ih
        have h2 : 0 < buf.length := List.length_pos.mpr (List.ne_nil_of_mem h)
        simp only [List.length_drop]
        omega
      · rw [drainBuf_no _ h]
        exact h

theorem drainBuf_tail (buf : List Nat) : 10 ∉ (drainBuf buf).2 :=
  drainBuf_tail_aux buf.length buf le_rfl


theorem indexOf_decomp : ∀ (a : List Nat), 10 ∈ a →
    a = a.take (a.indexOf 10) ++ 10 :: a.drop (a.indexOf 10 + 1) ∧ 10 ∉ a.take (a.indexOf 10) := by
  intro a
  induction a with
  | nil => intro h; simp at h
  | cons x t ih =>
      intro h
      by_cases hx : x = 10
      · subst hx
        rw [List.indexOf_cons_self]
        simp
      · have ht : 10 ∈ t := by
          rcases List.mem_cons.mp h with h1 | h1
          · exact absurd h1.symm hx
          · exact h1
        rw [List.indexOf_cons_ne t hx]
        obtain ⟨hd, hm⟩ := ih ht
        refine ⟨?_, ?_⟩
        · simp only [Nat.succ_eq_add_one, List.take_succ_cons, List.drop_succ_cons,
            List.cons_append]
          exact congrArg (List.cons x) hd
        · simp only [Nat.succ_eq_add_one, List.take_succ_cons, List.mem_cons]
          rintro (h10 | h10)
          · exact hx h10.symm
          · exact hm h10

theorem drainBuf_append_aux : ∀ n (a : List Nat), a.length ≤ n → ∀ b : List Nat,
    drainBuf (a ++ b) =
      ((drainBuf a).1 ++ (drainBuf ((drainBuf a).2 ++ b)).1,
       (drainBuf ((drainBuf a).2 ++ b)).2) := by
  intro n
  induction n with
  | zero =>
      intro a ha b
      have : a = [] := List.length_eq_zero.mp (Nat.le_zero.mp ha)
      subst this
      rw [drainBuf_no [] (by simp)]
      simp
  | succ n ih =>
      intro a ha b
      by_cases h : 10 ∈ a
      · obtain ⟨hd, hnl⟩ := indexOf_decomp a h
        generalize hL : a.take (a.indexOf 10) = l at hd hnl
        generalize hR : a.drop (a.indexOf 10 + 1) = r at hd
        have hrlen : r.length ≤ n := by
          have hlen := congrArg List.length hd
          simp only [List.length_append, List.length_cons] at hlen
          omega
        rw [hd]
        have hassoc : (l ++ 10 :: r) ++ b = l ++ 10 :: (r ++ b) := by
          simp [List.cons_append, List.append_assoc]
        rw [hassoc, drainBuf_split l (r ++ b) hnl, drainBuf_split l r hnl]
        rw [ih r hrlen b]
        simp [List.cons_append]
      · rw [drainBuf_no a h]
        simp

theorem drainBuf_append (a b : List Nat) :
    drainBuf (a ++ b) =
      ((drainBuf a).1 ++ (drainBuf ((drainBuf a).2 ++ b)).1,
       (drainBuf ((drainBuf a).2 ++ b)).2) :=
  drainBuf_append_aux a.length a le_rfl b

theorem foldl_readChunk (cs : List (List Nat)) : ∀ p : List (List Nat) × List Nat, 10 ∉ p.2 →
    cs.foldl readChunk p =
      (p.1 ++ (drainBuf (p.2 ++ cs.flatten)).1, (drainBuf (p.2 ++ cs.flatten)).2) := by
  induction cs with
  | nil =>
      intro p hp
      simp only [List.foldl_nil, List.flatten_nil, List.append_nil]
      rw [drainBuf_no _ hp]
      simp
  | cons c cs ih =>
      intro p hp
      simp only [List.foldl_cons, List.flatten_cons]
      rw [ih (readChunk p c) (drainBuf_tail (p.2 ++ c))]
      show (p.1 ++ (drainBuf (p.2 ++ c)).1 ++ (drainBuf ((drainBuf (p.2 ++ c)).2 ++ cs.flatten)).1,
            (drainBuf ((drainBuf (p.2 ++ c)).2 ++ cs.flatten)).2) = _
      rw [← List.append_assoc p.2 c cs.flatten, drainBuf_append (p.2 ++ c) cs.flatten]
      simp [List.append_assoc]

theorem read_lines_flatten (cs : List (List Nat)) : read_lines cs = drainBuf cs.flatten := by
  have h := foldl_readChunk cs ([], []) (by simp)
  simp only [List.nil_append] at h
  rw [read_lines, h]

theorem drainBuf_lines (ls : List (List Nat)) (h : ∀ l ∈ ls, 10 ∉ l) :
    drainBuf (ls.map (fun l => l ++ [10])).flatten = (ls.map lineOf, []) := by
  induction ls with
  | nil =>
      simp only [List.map_nil, List.flatten_nil]
      rw [drainBuf_no [] (by simp)]
  | cons l ls ih =>
      have hcons : ((l ++ [10]) :: ls.map (fun l => l ++ [10])).flatten
          = l ++ 10 :: (ls.map (fun l => l ++ [10])).flatten := by
        simp [List.flatten_cons, List.append_assoc]
      simp only [List.map_cons, hcons]
      rw [drainBuf_split l _ (h l (List.mem_cons_self l ls))]
      rw [ih (fun x hx => h x (List.mem_cons_of_mem l hx))]

theorem lineOf_id (l : List Nat) (ha : ∀ b ∈ l, b < 128) (hc : l.getLast? ≠ some 13) :
    lineOf l = l := by
  have hdec : decodeAsciiIgnore l = l := by
    rw [decodeAsciiIgnore, List.filter_eq_self]
    intro b hb
    simpa using ha b hb
  rw [lineOf, hdec, rstripCR]
  cases hr : l.reverse with
  | nil =>
      have : l = [] := by simpa using congrArg List.reverse hr
      simp [this]
  | cons a t =>
      have hhead : l.getLast? = some a := by
        rw [← List.head?_reverse, hr]
        rfl
      have ha13 : (a == 13) = false := by
        apply beq_eq_false_iff_ne.mpr
        intro hq
        exact hc (hq ▸ hhead)
      rw [List.dropWhile_cons, ha13]
      simp only [Bool.false_eq_true, if_false]
      rw [← hr, List.reverse_reverse]

theorem map_lineOf_id (ls : List (List Nat))
    (ha : ∀ l ∈ ls, ∀ b ∈ l, b < 128) (hc : ∀ l ∈ ls, l.getLast? ≠ some 13) :
    ls.map lineOf = ls := by
  induction ls with
  | nil => simp
  | cons l ls ih =>
      simp only [List.map_cons]
      rw [lineOf_id l (ha l (List.mem_cons_self l ls)) (hc l (List.mem_cons_self l ls))]
      rw [ih (fun x hx => ha x (List.mem_cons_of_mem l hx))
            (fun x hx => hc x (List.mem_cons_of_mem l hx))]

/-- C1: for every sequence of byte chunks whose concatenation forms N
newline-terminated lines (each line free of newline bytes; stated here for
ascii lines with no trailing carriage return, so that the decode and
carriage-return stripping are the identity), folding the chunks through
the read-line assembly of BrainstemSerial.read_lines yields exactly those
N lines in order and leaves the buffer empty, regardless of where the
chunk boundaries fall. -/
theorem read_lines_chunking (cs ls : List (List Nat))
    (hnl : ∀ l ∈ ls, 10 ∉ l)
    (ha : ∀ l ∈ ls, ∀ b ∈ l, b < 128)
    (hc : ∀ l ∈ ls, l.getLast? ≠ some 13)
    (hcat : cs.flatten = (ls.map (fun l => l ++ [10])).flatten) :
    read_lines cs = (ls, []) := by
  rw [read_lines_flatten, hcat, drainBuf_lines ls hnl, map_lineOf_id ls ha hc]

/-- Witness for C1: three chunks with a boundary mid-line, a chunk holding
the end of one line and the start of the next, and a final chunk completing
the second line, reassemble into the two lines. -/
theorem read_lines_chunking_witness :
    ((∀ l ∈ ([[72, 73], [65]] : List (List Nat)), 10 ∉ l) ∧
     ([[72], [73, 10, 65], [10]] : List (List Nat)).flatten =
       (([[72, 73], [65]] : List (List Nat)).map (fun l => l ++ [10])).flatten) ∧
    read_lines [[72], [73, 10, 65], [10]] = ([[72, 73], [65]], []) :=
  ⟨⟨by decide, by decide⟩,
    read_lines_chunking [[72], [73, 10, 65], [10]] [[72, 73], [65]]
      (by decide) (by decide) (by decide) (by decide)⟩

theorem dropWhile_replicate_13 (k : Nat) (y : List Nat) :
    List.dropWhile (fun b => b == 13) (List.replicate k 13 ++ y) =
      List.dropWhile (fun b => b == 13) y := by
  induction k with
  | zero => simp
  | succ k ih => simp [List.replicate_succ, List.dropWhile_cons, ih]

theorem filter_lt128_replicate_13 (k : Nat) :
    List.filter (fun b => b < 128) (List.replicate k 13) = List.replicate k 13 := by
  rw [List.filter_eq_self]
  intro b hb
  have : b = 13 := List.eq_of_mem_replicate hb
  simp [this]

theorem lineOf_append_crs (l : List Nat) (k : Nat) :
    lineOf (l ++ List.replicate k 13) = lineOf l := by
  have hdec : decodeAsciiIgnore (l ++ List.replicate k 13)
      = decodeAsciiIgnore l ++ List.replicate k 13 := by
    rw [decodeAsciiIgnore, decodeAsciiIgnore, List.filter_append, filter_lt128_replicate_13]
  rw [lineOf, lineOf, hdec, rstripCR, rstripCR]
  rw [List.reverse_append, List.reverse_replicate, dropWhile_replicate_13]

/-- C6 counterexample: a device line whose content ends in two carriage
returns. The read stream yields the content with both carriage returns
removed; stripping exactly one trailing carriage return, as the claim
states, would yield content still ending in a carriage return. -/
theorem read_lines_cr_counterexample :
    (read_lines [[97, 13, 13, 10]]).1 = [[97]] ∧ ([[97]] : List (List Nat)) ≠ [[97, 13]] := by
  constructor
  · rw [read_lines_flatten]
    simp only [List.flatten_cons, List.flatten_nil, List.append_nil]
    have h1 : ([97, 13, 13, 10] : List Nat) = [97, 13, 13] ++ 10 :: [] := rfl
    rw [h1, drainBuf_split _ _ (by decide), drainBuf_no [] (by decide)]
    rfl
  · decide

/-- C6 amended: every completed line yielded by the read stream has its
whole maximal run of trailing carriage returns stripped, so CRLF- and
LF-terminated device lines yield the same content, and a line followed by
any number of carriage returns before the newline yields that same
content too. -/
theorem read_lines_strips_trailing_crs (l : List Nat) (k : Nat) (h : 10 ∉ l) :
    (read_lines [l ++ List.replicate k 13 ++ [10]]).1 = (read_lines [l ++ [10]]).1 := by
  have hk : 10 ∉ l ++ List.replicate k 13 := by
    intro hm
    rcases List.mem_append.mp hm with hm | hm
    · exact h hm
    · have := List.eq_of_mem_replicate hm
      simp at this
  have e1 : l ++ List.replicate k 13 ++ [10] = (l ++ List.replicate k 13) ++ 10 :: [] := by
    simp
  have e2 : l ++ [10] = l ++ 10 :: [] := rfl
  rw [read_lines_flatten, read_lines_flatten]
  simp only [List.flatten_cons, List.flatten_nil, List.append_nil]
  rw [e1, e2, drainBuf_split _ _ hk, drainBuf_split _ _ h, lineOf_append_crs]

/-- Witness for the amended C6: the line content 'a' followed by two
carriage returns and a newline yields the same line as 'a' newline. -/
theorem read_lines_strips_trailing_crs_witness :
    (10 ∉ ([97] : List Nat)) ∧
    (read_lines [[97] ++ List.replicate 2 13 ++ [10]]).1 = (read_lines [[97] ++ [10]]).1 :=
  ⟨by decide, read_lines_strips_trailing_crs [97] 2 (by decide)⟩

/-- C7 counterexample: a text that already ends in a newline. The claim
predicts the full byte sequence of the text followed by one newline
(two newline bytes); write_line first strips the trailing newline and
writes a single one. -/
theorem write_line_counterexample :
    write_line "A\n" = [65, 10] ∧ strBytes "A\n" ++ [10] = [65, 10, 10] ∧
    ([65, 10] : List Nat) ≠ [65, 10, 10] := by
  refine ⟨by decide, by decide, by decide⟩

/-- C7 amended: for every ascii text with no trailing newline, the byte
sequence handed to the device is exactly the text's bytes followed by one
newline; a text with trailing newlines first has them stripped, and
non-ascii characters are dropped by the ascii errors-ignore encode. -/
theorem write_line_appends_newline (line : String)
    (hnl : line.toList.getLast? ≠ some '\n')
    (ha : ∀ c ∈ line.toList, c.toNat < 128) :
    write_line line = strBytes line ++ [10] := by
  obtain ⟨data⟩ := line
  have hnl' : data.getLast? ≠ some '\n' := hnl
  have ha' : ∀ c ∈ data, c.toNat < 128 := ha
  have hstrip : rstripChar (String.mk data) '\n' = String.mk data := by
    rw [rstripChar]
    have : ((String.mk data).toList.reverse.dropWhile (fun d => d == '\n')).reverse = data := by
      show (data.reverse.dropWhile (fun d => d == '\n')).reverse = data
      cases hr : data.reverse with
      | nil =>
          have hz : data = [] := by simpa using congrArg List.reverse hr
          simp [hz]
      | cons a t =>
          have hhead : data.getLast? = some a := by
            rw [← List.head?_reverse, hr]
            rfl
          have hane : (a == '\n') = false := by
            apply beq_eq_false_iff_ne.mpr
            intro hq
            exact hnl' (hq ▸ hhead)
          rw [List.dropWhile_cons, hane]
          simp only [Bool.false_eq_true, if_false]
          have hdr := congrArg List.reverse hr
          rw [List.reverse_reverse] at hdr
          exact hdr.symm
    rw [this]
  rw [write_line, hstrip]
  have happ : (String.mk data ++ "\n").toList = data ++ ['\n'] := by
    show (String.mk data ++ "\n").data = data ++ ['\n']
    rw [String.data_append]
  rw [pyEncodeAscii, happ]
  have hfil : (data ++ ['\n']).filter (fun c => c.toNat < 128) = data ++ ['\n'] := by
    rw [List.filter_eq_self]
    intro c hc
    rcases List.mem_append.mp hc with hc | hc
    · simpa using ha' c hc
    · simp only [List.mem_singleton] at hc
      subst hc
      decide
  rw [hfil, List.map_append]
  rfl

/-- Witness for the amended C7: an ascii command line gains exactly one
trailing newline. -/
theorem write_line_appends_newline_witness :
    (("PING,2" : String).toList.getLast? ≠ some '\n') ∧
    write_line "PING,2" = strBytes "PING,2" ++ [10] :=
  ⟨by decide, write_line_appends_newline "PING,2" (by decide) (by decide)⟩

/-! ### handle_msg branch lemmas -/

@[simp] theorem sendAndEcho_writes (w : Bool) (st : Bridge) (line : String) (sq : List Nat) :
    (sendAndEcho w st line sq).writes = [line] := by
  cases w <;> rfl

@[simp] theorem sendAndEcho_echoes (w : Bool) (st : Bridge) (line : String) (sq : List Nat) :
    (sendAndEcho w st line sq).echoes = [WsEvent.tx line] := by
  cases w <;> rfl

@[simp] theorem sendAndEcho_seqs (w : Bool) (st : Bridge) (line : String) (sq : List Nat) :
    (sendAndEcho w st line sq).seqs = sq := by
  cases w <;> rfl

@[simp] theorem sendAndEcho_st_seq (w : Bool) (st : Bridge) (line : String) (sq : List Nat) :
    (sendAndEcho w st line sq).st.seq = st.seq := by
  cases w <;> rfl

theorem ratTrunc_intCast (m : Int) : ratTrunc ((m : ℚ)) = m := by
  have hfloor : ∀ z : Int, Rat.floor ((z : ℚ)) = z := by
    intro z
    have h1 : Rat.floor ((z : ℚ)) = ⌊((z : ℚ))⌋ := by
      rw [Rat.floor_def', Rat.floor_def]
    rw [h1, Int.floor_intCast]
  rw [ratTrunc]
  by_cases h : ((m : ℚ)) < 0
  · rw [if_pos h]
    have : -((m : ℚ)) = (((-m : Int)) : ℚ) := by push_cast; ring
    rw [this, hfloor, neg_neg]
  · rw [if_neg h, hfloor]

/-- C5: each valid client message deterministically translates into exactly
one device line of the documented shape: twist renders TWIST followed by
the formatted velocities and the fresh sequence number, safe renders SAFE
with the truthiness digit, ping renders PING with the fresh sequence
number, led renders LED with the mask, all comma separated. -/
theorem handle_msg_renders (w : Bool) (st : Bridge) :
    (∀ vx wz : ℚ,
      (handle_msg w st [("type", JVal.str "twist"), ("vx", JVal.num vx), ("wz", JVal.num wz)]).writes
        = ["TWIST," ++ fmt3 vx ++ "," ++ fmt3 wz ++ "," ++ toString ((st.seq + 1) % M32)]) ∧
    (∀ v : JVal,
      (handle_msg w st [("type", JVal.str "safe"), ("enable", v)]).writes
        = [if pyBool v then "SAFE,1" else "SAFE,0"]) ∧
    ((handle_msg w st [("type", JVal.str "ping")]).writes
        = ["PING," ++ toString ((st.seq + 1) % M32)]) ∧
    (∀ m : Int,
      (handle_msg w st [("type", JVal.str "led"), ("mask", JVal.num ((m : ℚ)))]).writes
        = ["LED," ++ toString m]) := by
  refine ⟨?_, ?_, ?_, ?_⟩
  · intro vx wz
    simp [handle_msg, jGet, pyFloat]
  · intro v
    cases hb : pyBool v <;> simp [handle_msg, jGet, hb] <;> rfl
  · simp [handle_msg, jGet]
  · intro m
    simp [handle_msg, jGet, pyInt, ratTrunc_intCast]

/-- C8: an led message whose mask does not parse as an integer is not
dropped; the int() failure is caught, the mask defaults to 0, and exactly
one device line LED,0 is written. -/
theorem handle_msg_led_default (w : Bool) (st : Bridge) (v : JVal) (e : PyErr)
    (h : pyInt v = Except.error e) :
    (handle_msg w st [("type", JVal.str "led"), ("mask", v)]).writes = ["LED,0"] := by
  simp [handle_msg, jGet, h]
  rfl

/-- Witness for C8: an led message whose mask is the non-numeric string
xyz writes LED,0. -/
theorem handle_msg_led_default_witness :
    pyInt (JVal.str "xyz") = Except.error PyErr.valueError ∧
    (handle_msg true { seq := 1, tx_count := 0, rx_count := 0, last_tx := none, last_rx := none }
      [("type", JVal.str "led"), ("mask", JVal.str "xyz")]).writes = ["LED,0"] :=
  ⟨rfl, handle_msg_led_default true _ (JVal.str "xyz") PyErr.valueError rfl⟩

/-- C10: a safe message with no enable field defaults to enabled and writes
SAFE,1; a present enable value renders the digit of its Python truthiness,
with the falsy values false, 0, the empty string and null rendering SAFE,0
and truthy values rendering SAFE,1. -/
theorem handle_msg_safe_truthiness (w : Bool) (st : Bridge) :
    ((handle_msg w st [("type", JVal.str "safe")]).writes = ["SAFE,1"]) ∧
    (∀ v : JVal, (handle_msg w st [("type", JVal.str "safe"), ("enable", v)]).writes
        = [if pyBool v then "SAFE,1" else "SAFE,0"]) ∧
    ((handle_msg w st [("type", JVal.str "safe"), ("enable", JVal.bool false)]).writes
        = ["SAFE,0"]) ∧
    ((handle_msg w st [("type", JVal.str "safe"), ("enable", JVal.num 0)]).writes = ["SAFE,0"]) ∧
    ((handle_msg w st [("type", JVal.str "safe"), ("enable", JVal.str "")]).writes = ["SAFE,0"]) ∧
    ((handle_msg w st [("type", JVal.str "safe"), ("enable", JVal.null)]).writes = ["SAFE,0"]) ∧
    ((handle_msg w st [("type", JVal.str "safe"), ("enable", JVal.num 2)]).writes = ["SAFE,1"]) ∧
    ((handle_msg w st [("type", JVal.str "safe"), ("enable", JVal.str "no")]).writes
        = ["SAFE,1"]) := by
  refine ⟨?_, ?_, ?_, ?_, ?_, ?_, ?_, ?_⟩
  · simp [handle_msg, jGet, pyBool]
    rfl
  · intro v
    cases hb : pyBool v <;> simp [handle_msg, jGet, hb] <;> rfl
  all_goals (simp [handle_msg, jGet, pyBool]; rfl)

/-- C3 as the code behaves: a twist message whose vx is a non-numeric
string makes float() raise an uncaught ValueError inside handle_msg. The
call writes nothing to the device, sends nothing to the client, and leaves
all bridge state unchanged, but it does not silently ignore the message:
the exception propagates out of handle_msg (aborting that client's receive
loop) instead of being swallowed as the specification states. -/
theorem handle_msg_twist_nonnumeric_raises (w : Bool) (st : Bridge) :
    handle_msg w st [("type", JVal.str "twist"), ("vx", JVal.str "abc")]
      = { st := st, writes := [], seqs := [], echoes := [], err := some PyErr.valueError } := by
  rfl

/-- C9: when the serial write fails, every branch of handle_msg skips the
stats updates inside the try block, so tx_count and last_tx are unchanged;
the finally block still broadcasts the TX echo of the rendered line, and
the write error propagates out of the call. -/
theorem handle_msg_write_failure (st : Bridge) :
    (∀ vx wz : ℚ,
      (handle_msg false st
          [("type", JVal.str "twist"), ("vx", JVal.num vx), ("wz", JVal.num wz)]).st.tx_count
          = st.tx_count ∧
      (handle_msg false st
          [("type", JVal.str "twist"), ("vx", JVal.num vx), ("wz", JVal.num wz)]).st.last_tx
          = st.last_tx ∧
      (handle_msg false st
          [("type", JVal.str "twist"), ("vx", JVal.num vx), ("wz", JVal.num wz)]).echoes
          = [WsEvent.tx ("TWIST," ++ fmt3 vx ++ "," ++ fmt3 wz ++ ","
              ++ toString ((st.seq + 1) % M32))] ∧
      (handle_msg false st
          [("type", JVal.str "twist"), ("vx", JVal.num vx), ("wz", JVal.num wz)]).err
          = some PyErr.writeError) ∧
    (∀ v : JVal,
      (handle_msg false st [("type", JVal.str "safe"), ("enable", v)]).st.tx_count
          = st.tx_count ∧
      (handle_msg false st [("type", JVal.str "safe"), ("enable", v)]).st.last_tx = st.last_tx ∧
      (handle_msg false st [("type", JVal.str "safe"), ("enable", v)]).echoes
          = [WsEvent.tx (if pyBool v then "SAFE,1" else "SAFE,0")] ∧
      (handle_msg false st [("type", JVal.str "safe"), ("enable", v)]).err
          = some PyErr.writeError) ∧
    ((handle_msg false st [("type", JVal.str "ping")]).st.tx_count = st.tx_count ∧
     (handle_msg false st [("type", JVal.str "ping")]).st.last_tx = st.last_tx ∧
     (handle_msg false st [("type", JVal.str "ping")]).echoes
          = [WsEvent.tx ("PING," ++ toString ((st.seq + 1) % M32))] ∧
     (handle_msg false st [("type", JVal.str "ping")]).err = some PyErr.writeError) ∧
    (∀ m : Int,
      (handle_msg false st [("type", JVal.str "led"), ("mask", JVal.num ((m : ℚ)))]).st.tx_count
          = st.tx_count ∧
      (handle_msg false st [("type", JVal.str "led"), ("mask", JVal.num ((m : ℚ)))]).st.last_tx
          = st.last_tx ∧
      (handle_msg false st [("type", JVal.str "led"), ("mask", JVal.num ((m : ℚ)))]).echoes
          = [WsEvent.tx ("LED," ++ toString m)] ∧
      (handle_msg false st [("type", JVal.str "led"), ("mask", JVal.num ((m : ℚ)))]).err
          = some PyErr.writeError) := by
  refine ⟨?_, ?_, ?_, ?_⟩
  · intro vx wz
    refine ⟨?_, ?_, ?_, ?_⟩ <;> simp [handle_msg, jGet, pyFloat, sendAndEcho]
  · intro v
    cases hb : pyBool v <;>
      refine ⟨?_, ?_, ?_, ?_⟩ <;> simp [handle_msg, jGet, hb, sendAndEcho] <;> rfl
  · refine ⟨?_, ?_, ?_, ?_⟩ <;> simp [handle_msg, jGet, sendAndEcho]
  · intro m
    refine ⟨?_, ?_, ?_, ?_⟩ <;> simp [handle_msg, jGet, pyInt, ratTrunc_intCast, sendAndEcho]

/-! ### Sequence-counter lemmas -/

theorem handle_msg_seq_step (w : Bool) (st : Bridge) (m : Msg) (hm : twistOk m) :
    (handle_msg w st m).st.seq = (if isSeqMsg m then (st.seq + 1) % M32 else st.seq) ∧
    (handle_msg w st m).seqs = (if isSeqMsg m then [(st.seq + 1) % M32] else []) := by
  cases hj : jGet m "type" with
  | none => simp [handle_msg, isSeqMsg, hj, hskip]
  | some jv =>
    cases jv with
    | str t =>
      by_cases ht : t = "twist"
      · subst ht
        obtain ⟨h1, h2⟩ := hm hj
        cases hvx : pyFloat ((jGet m "vx").getD (JVal.num 0)) with
        | error e => simp [pyFloatOk, hvx] at h1
        | ok q1 =>
          cases hwz : pyFloat ((jGet m "wz").getD (JVal.num 0)) with
          | error e => simp [pyFloatOk, hwz] at h2
          | ok q2 => simp [handle_msg, isSeqMsg, hj, hvx, hwz]
      · by_cases hs : t = "safe"
        · subst hs
          simp [handle_msg, isSeqMsg, hj]
        · by_cases hp : t = "ping"
          · subst hp
            simp [handle_msg, isSeqMsg, hj]
          · by_cases hl : t = "led"
            · subst hl
              simp [handle_msg, isSeqMsg, hj]
            · simp [handle_msg, isSeqMsg, hj, ht, hs, hp, hl, hskip]
    | null => simp [handle_msg, isSeqMsg, hj, hskip]
    | bool b => simp [handle_msg, isSeqMsg, hj, hskip]
    | num q => simp [handle_msg, isSeqMsg, hj, hskip]
    | arr xs => simp [handle_msg, isSeqMsg, hj, hskip]
    | obj kvs => simp [handle_msg, isSeqMsg, hj, hskip]

theorem handleMany_acc (w : Bool) (msgs : List Msg) : ∀ (st : Bridge) (acc : List Nat),
    msgs.foldl (fun a m =>
      let r := handle_msg w a.1 m
      (r.st, a.2 ++ r.seqs)) (st, acc)
      = ((handleMany w st msgs).1, acc ++ (handleMany w st msgs).2) := by
  induction msgs with
  | nil =>
      intro st acc
      simp [handleMany]
  | cons m rest ih =>
      intro st acc
      simp only [handleMany, List.foldl_cons, List.nil_append]
      rw [ih (handle_msg w st m).st (acc ++ (handle_msg w st m).seqs),
          ih (handle_msg w st m).st (handle_msg w st m).seqs]
      simp [List.append_assoc]

theorem map_range_succ_cons {α : Type} (f : Nat → α) (k : Nat) :
    List.map f (List.range (k + 1)) = f 0 :: List.map (fun i => f (i + 1)) (List.range k) := by
  rw [List.range_succ_eq_map, List.map_cons, List.map_map]
  rfl

theorem handleMany_cons (w : Bool) (st : Bridge) (m : Msg) (rest : List Msg) :
    handleMany w st (m :: rest)
      = ((handleMany w (handle_msg w st m).st rest).1,
         (handle_msg w st m).seqs ++ (handleMany w (handle_msg w st m).st rest).2) := by
  simp only [handleMany, List.foldl_cons, List.nil_append]
  exact handleMany_acc w rest (handle_msg w st m).st (handle_msg w st m).seqs

/-- C2: over any sequence of handled client messages whose twist messages
carry float-convertible velocities, the sequence numbers rendered into
TWIST and PING lines form the consecutive window after the starting
counter, reduced modulo 2^32 — they strictly increase modulo 2^32 across
any mix of the two kinds — and the counter afterwards has advanced by
exactly the number of twist and ping messages: safe and led messages (and
unknown shapes) leave it unchanged. -/
theorem handleMany_seq_trace (w : Bool) (msgs : List Msg) : ∀ st : Bridge,
    (∀ m ∈ msgs, twistOk m) → st.seq < M32 →
    (handleMany w st msgs).2
        = (List.range (msgs.countP isSeqMsg)).map (fun i => (st.seq + 1 + i) % M32) ∧
    (handleMany w st msgs).1.seq = (st.seq + msgs.countP isSeqMsg) % M32 := by
  induction msgs with
  | nil =>
      intro st _ hlt
      refine ⟨by simp [handleMany], ?_⟩
      simp [handleMany, Nat.mod_eq_of_lt hlt]
  | cons m rest ih =>
      intro st hwf hlt
      have hm := hwf m (List.mem_cons_self m rest)
      have hrest : ∀ x ∈ rest, twistOk x := fun x hx => hwf x (List.mem_cons_of_mem m hx)
      obtain ⟨hseq, hseqs⟩ := handle_msg_seq_step w st m hm
      rw [handleMany_cons]
      by_cases hsm : isSeqMsg m
      · have hlt' : (handle_msg w st m).st.seq < M32 := by
          rw [hseq, if_pos hsm]
          exact Nat.mod_lt _ (by decide)
        obtain ⟨ih1, ih2⟩ := ih (handle_msg w st m).st hrest hlt'
        have hcount : (m :: rest).countP isSeqMsg = rest.countP isSeqMsg + 1 := by
          simp [List.countP_cons, hsm]
        refine ⟨?_, ?_⟩
        · rw [hseqs, if_pos hsm, ih1, hseq, if_pos hsm, hcount, map_range_succ_cons,
            List.singleton_append]
          have htail : List.map (fun i => ((st.seq + 1) % M32 + 1 + i) % M32)
                (List.range (rest.countP isSeqMsg))
              = List.map (fun i => (st.seq + 1 + (i + 1)) % M32)
                (List.range (rest.countP isSeqMsg)) := by
            apply List.map_congr_left
            intro a _
            have h1 : (st.seq + 1) % M32 + 1 + a = (st.seq + 1) % M32 + (1 + a) := by omega
            have h2 : st.seq + 1 + (a + 1) = st.seq + 1 + (1 + a) := by omega
            rw [h1, h2, Nat.mod_add_mod]
          rw [htail]
        · rw [ih2, hseq, if_pos hsm, hcount]
          rw [Nat.mod_add_mod]
          congr 1
          omega
      · obtain ⟨ih1, ih2⟩ := ih (handle_msg w st m).st hrest (by rw [hseq, if_neg hsm]; exact hlt)
        have hcount : (m :: rest).countP isSeqMsg = rest.countP isSeqMsg := by
          simp [List.countP_cons, hsm]
        refine ⟨?_, ?_⟩
        · rw [hseqs, if_neg hsm, ih1, hseq, if_neg hsm, hcount, List.nil_append]
        · rw [ih2, hseq, if_neg hsm, hcount]

/-- Witness for C2: from the initial counter 1, a float-safe twist, a safe
toggle, and a ping yield the rendered sequence numbers 2 then 3 (the safe
message in between contributing nothing), and the counter ends at 3. -/
theorem handleMany_seq_trace_witness :
    ((∀ m ∈ ([[("type", JVal.str "twist"), ("vx", JVal.num 1)],
              [("type", JVal.str "safe")],
              [("type", JVal.str "ping")]] : List Msg), twistOk m) ∧ (1 : Nat) < M32) ∧
    (handleMany true
        { seq := 1, tx_count := 0, rx_count := 0, last_tx := none, last_rx := none }
        [[("type", JVal.str "twist"), ("vx", JVal.num 1)],
         [("type", JVal.str "safe")],
         [("type", JVal.str "ping")]]).2
      = (List.range (([[("type", JVal.str "twist"), ("vx", JVal.num 1)],
              [("type", JVal.str "safe")],
              [("type", JVal.str "ping")]] : List Msg).countP isSeqMsg)).map
          (fun i => (1 + 1 + i) % M32) ∧
    (handleMany true
        { seq := 1, tx_count := 0, rx_count := 0, last_tx := none, last_rx := none }
        [[("type", JVal.str "twist"), ("vx", JVal.num 1)],
         [("type", JVal.str "safe")],
         [("type", JVal.str "ping")]]).1.seq
      = (1 + ([[("type", JVal.str "twist"), ("vx", JVal.num 1)],
              [("type", JVal.str "safe")],
              [("type", JVal.str "ping")]] : List Msg).countP isSeqMsg) % M32 := by
  have hwf : ∀ m ∈ ([[("type", JVal.str "twist"), ("vx", JVal.num 1)],
              [("type", JVal.str "safe")],
              [("type", JVal.str "ping")]] : List Msg), twistOk m := by
    intro m hm
    simp only [List.mem_cons, List.not_mem_nil, or_false] at hm
    rcases hm with rfl | rfl | rfl
    · intro _
      exact ⟨rfl, rfl⟩
    · intro h
      have h' : some (JVal.str "safe") = some (JVal.str "twist") := h
      injection h' with h''
      injection h'' with h3
      exact absurd h3 (by decide)
    · intro h
      have h' : some (JVal.str "ping") = some (JVal.str "twist") := h
      injection h' with h''
      injection h'' with h3
      exact absurd h3 (by decide)
  refine ⟨⟨hwf, by decide⟩, ?_⟩
  exact handleMany_seq_trace true _ _ hwf (by decide)

/-! ### Telemetry broadcast lemmas -/

theorem broadcast_foldl (fails : Nat → Bool) (clients : List Nat) : ∀ acc : List Nat × List Nat,
    clients.foldl
      (fun (acc : List Nat × List Nat) ws =>
        if fails ws then (acc.1, acc.2 ++ [ws]) else (acc.1 ++ [ws], acc.2)) acc
      = (acc.1 ++ clients.filter (fun c => !fails c), acc.2 ++ clients.filter fails) := by
  induction clients with
  | nil =>
      intro acc
      simp
  | cons c cs ih =>
      intro acc
      cases hf : fails c <;>
        simp [List.filter_cons, hf, ih, List.append_assoc]

theorem filter_beq_of_nodup (clients : List Nat) (bad : Nat) :
    clients.Nodup → bad ∈ clients → clients.filter (fun c => c == bad) = [bad] := by
  induction clients with
  | nil =>
      intro _ hm
      simp at hm
  | cons c cs ih =>
      intro hnd hm
      rcases List.mem_cons.mp hm with rfl | hm'
      · have hnotin : bad ∉ cs := (List.nodup_cons.mp hnd).1
        have hzero : cs.filter (fun x => x == bad) = [] := by
          rw [List.filter_eq_nil_iff]
          intro a ha
          simp only [beq_iff_eq]
          intro hq
          exact hnotin (hq ▸ ha)
        simp [List.filter_cons, hzero]
      · have hc : (c == bad) = false := by
          apply beq_eq_false_iff_ne.mpr
          intro h
          exact (List.nodup_cons.mp hnd).1 (h ▸ hm')
        simp [List.filter_cons, hc, ih (List.nodup_cons.mp hnd).2 hm']

theorem filter_not_beq_eq_filter_ne (clients : List Nat) (bad : Nat) :
    clients.filter (fun c => !(c == bad)) = clients.filter (fun c => c ≠ bad) := by
  apply List.filter_congr
  intro c _
  by_cases h : c = bad <;> simp [h]

/-- C4: broadcasting one telemetry line to a duplicate-free registry in
which exactly one session always fails to receive still delivers the
payload to every other session, in registry order; the failing session is
removed from the registry afterwards and every other session stays
registered. -/
theorem telemetry_broadcast_isolation (clients : List Nat) (bad : Nat)
    (hnd : clients.Nodup) (hm : bad ∈ clients) :
    (telemetry_broadcast clients (fun c => c == bad)).1 = clients.filter (fun c => c ≠ bad) ∧
    (telemetry_broadcast clients (fun c => c == bad)).1.length = clients.length - 1 ∧
    (telemetry_broadcast clients (fun c => c == bad)).2 = clients.filter (fun c => c ≠ bad) ∧
    bad ∉ (telemetry_broadcast clients (fun c => c == bad)).2 := by
  have hfe : clients.filter (fun c => c ≠ bad) = clients.erase bad := by
    rw [hnd.erase_eq_filter]
    apply List.filter_congr
    intro c _
    by_cases h : c = bad <;> simp [h]
  have hb : telemetry_broadcast clients (fun c => c == bad)
      = (clients.filter (fun c => c ≠ bad), clients.filter (fun c => c ≠ bad)) := by
    rw [telemetry_broadcast, broadcast_foldl]
    simp only [List.nil_append]
    rw [filter_beq_of_nodup clients bad hnd hm, filter_not_beq_eq_filter_ne]
    simp [List.foldl_cons, List.foldl_nil]
  refine ⟨by rw [hb], ?_, by rw [hb], ?_⟩
  · rw [hb]
    simp only
    rw [hfe]
    exact List.length_erase_of_mem hm
  · rw [hb]
    simp only
    intro hc
    have := List.mem_filter.mp hc
    simp at this

/-- Witness for C4: in the registry 1, 2, 3 with session 2 failing, the
payload is delivered to sessions 1 and 3 and the registry afterwards is
1, 3. -/
theorem telemetry_broadcast_isolation_witness :
    (([1, 2, 3] : List Nat).Nodup ∧ (2 : Nat) ∈ ([1, 2, 3] : List Nat)) ∧
    (telemetry_broadcast [1, 2, 3] (fun c => c == 2)).1
        = ([1, 2, 3] : List Nat).filter (fun c => c ≠ 2) ∧
    (telemetry_broadcast [1, 2, 3] (fun c => c == 2)).1.length
        = ([1, 2, 3] : List Nat).length - 1 ∧
    (telemetry_broadcast [1, 2, 3] (fun c => c == 2)).2
        = ([1, 2, 3] : List Nat).filter (fun c => c ≠ 2) ∧
    2 ∉ (telemetry_broadcast [1, 2, 3] (fun c => c == 2)).2 :=
  ⟨⟨by decide, by decide⟩, telemetry_broadcast_isolation [1, 2, 3] 2 (by decide) (by decide)⟩
